import Mathlib

/-!
# Verification of `linuxprocsmapstocsv` (dynamic-schema variant)

A shallow embedding of the Go program that converts the Linux
`/proc/<pid>/smaps` text format into CSV rows.  Byte strings are modelled
as `List Char` (the input is ASCII text).  Each definition mirrors the
corresponding Go function of the dynamic-schema source file
(`convertSmapsToCsv` and its helpers); fallible functions return `Option`
or `Except`, and a Go `panic` / nil-pointer dereference is modelled as a
distinct error constructor.
-/

namespace SmapsToCsv

/-- One region attribute line parsed into its seven columns
(Go struct `region`). -/
structure Region where
  AddressStart : List Char
  AddressEnd : List Char
  Perms : List Char
  Offset : List Char
  Dev : List Char
  Inode : List Char
  Pathname : List Char
deriving DecidableEq, Repr

/-- Go struct `mapping`: one region plus the ordered field names/values
accumulated from the field lines that follow the region header.
`Region = none` models the Go nil pointer. -/
structure Mapping where
  Region : Option Region
  FieldNames : List (List Char)
  FieldValues : List (List Char)
deriving DecidableEq, Repr

/-- The ways a run can abort.  `badFormat` is Go's `errBadFormat`;
`fieldNamesMismatch` is the error built by `checkFieldNames` (carrying the
offending region's line number, the expected field names and the actual
ones); the two `panic…` constructors model the Go panic in `isRegionLine`
and the nil-pointer dereference of `m.Region` in `toCSVRecord`. -/
inductive ConvError where
  | badFormat : ConvError
  | fieldNamesMismatch (regionLineNo : Nat)
      (expected actual : List (List Char)) : ConvError
  | panicNoColon (line : List Char) : ConvError
  | panicNilRegion : ConvError
deriving DecidableEq, Repr

/-- Go `bytes.Cut(l, [sep])`: split at the first occurrence of `sep`.
Go returns `(l, nil, false)` when `sep` is absent; every call site of the
program checks `ok`, except one in `parseField` which keeps the whole
input unchanged, so `Option` is a faithful model (see `parseField`). -/
def cutChar (sep : Char) : List Char → Option (List Char × List Char)
  | [] => none
  | c :: rest =>
    if c = sep then some ([], rest)
    else
      match cutChar sep rest with
      | none => none
      | some (before, after) => some (c :: before, after)

/-- Go `unicode.IsSpace` restricted to the ASCII bytes that
`bytes.TrimSpace` trims on this byte-oriented input. -/
def isSpaceChar (c : Char) : Bool :=
  c = ' ' ∨ c = '\t' ∨ c = '\n' ∨ c = '\x0b' ∨ c = '\x0c' ∨ c = '\r'

/-- Go `bytes.TrimSpace`: drop whitespace from both ends. -/
def trimSpace (l : List Char) : List Char :=
  ((l.dropWhile isSpaceChar).reverse.dropWhile isSpaceChar).reverse

/-- Go `readLine` in its loop: `bufio.Reader.ReadBytes('\n')` yields each
newline-terminated line (`ReadBytes` accumulates across `ErrBufferFull`,
so the buffer size imposes no line-length limit), `bytes.TrimRight`
strips the terminator, and the final unterminated chunk is returned
together with `io.EOF`, which `readLine` turns into a plain `EOF`: that
chunk is discarded.  `splitLines` therefore returns exactly the
newline-terminated lines, terminators stripped. -/
def splitLines : List Char → List (List Char)
  | [] => []
  | c :: rest =>
    if c = '\n' then [] :: splitLines rest
    else
      match splitLines rest with
      | [] => []
      | l :: ls => (c :: l) :: ls

/-- Go `isRegionLine`: find the first colon (panic when there is none,
modelled as `none`), and report whether a space occurs before it. -/
def isRegionLine (line : List Char) : Option Bool :=
  match cutChar ':' line with
  | none => none
  | some (before, _) => some (before.contains ' ')

/-- Go `parseRegion`: six positional cuts (first on `-`, then on spaces),
each returning `errBadFormat` when the delimiter is missing; the
remainder, trimmed of surrounding whitespace, is the pathname. -/
def parseRegion (line : List Char) : Option Region :=
  match cutChar '-' line with
  | none => none
  | some (addressStart, rest₁) =>
  match cutChar ' ' rest₁ with
  | none => none
  | some (addressEnd, rest₂) =>
  match cutChar ' ' rest₂ with
  | none => none
  | some (perms, rest₃) =>
  match cutChar ' ' rest₃ with
  | none => none
  | some (offset, rest₄) =>
  match cutChar ' ' rest₄ with
  | none => none
  | some (dev, rest₅) =>
  match cutChar ' ' rest₅ with
  | none => none
  | some (inode, rest₆) =>
    some ⟨addressStart, addressEnd, perms, offset, dev, inode, trimSpace rest₆⟩

/-- Go `parseField`: cut on the first colon (`errBadFormat` when absent),
trim the value's leading spaces, and unless the name is `VmFlags` cut the
value at the first space, ignoring the `ok` flag (so a value without a
space is kept whole). -/
def parseField (line : List Char) : Option (List Char × List Char) :=
  match cutChar ':' line with
  | none => none
  | some (name, rest) =>
    let value := rest.dropWhile (fun c => c = ' ')
    if name = "VmFlags".toList then some (name, value)
    else
      match cutChar ' ' value with
      | none => some (name, value)
      | some (v, _) => some (name, v)

/-- The seven fixed region column names of `mapping.toCSVHeader`. -/
def fixedHeaderCols : List (List Char) :=
  ["AddressStart".toList, "AddressEnd".toList, "Perms".toList,
   "Offset".toList, "Dev".toList, "Inode".toList, "Pathname".toList]

/-- Go `mapping.toCSVHeader`: fixed region columns followed by the
accumulated field names. -/
def toCSVHeader (m : Mapping) : List (List Char) :=
  fixedHeaderCols ++ m.FieldNames

/-- Go `mapping.toCSVRecord`: the seven region attributes followed by the
field values.  When `m.Region` is the nil pointer Go panics; modelled as
`none`. -/
def toCSVRecord (m : Mapping) : Option (List (List Char)) :=
  match m.Region with
  | none => none
  | some r =>
    some ([r.AddressStart, r.AddressEnd, r.Perms, r.Offset,
           r.Dev, r.Inode, r.Pathname] ++ m.FieldValues)

/-- Go `mapping.checkFieldNames`: `reflect.DeepEqual` of the two name
slices (list equality — the program only ever compares `nil` or non-empty
slices, where `DeepEqual` agrees with list equality); on mismatch the
error carries the offending region's line number and both sequences. -/
def checkFieldNames (m : Mapping) (firstLineFieldNames : List (List Char))
    (regionLineNo : Nat) : Option ConvError :=
  if m.FieldNames = firstLineFieldNames then none
  else some (.fieldNamesMismatch regionLineNo firstLineFieldNames m.FieldNames)

/-- The local state of the loop of `convertSmapsToCsv`: the in-progress
mapping, the captured schema `firstLineFieldLabels`, `regionIndex`
(starting at -1), the two line counters, and the rows written so far to
the CSV writer. -/
structure ConvState where
  m : Mapping
  firstLineFieldLabels : List (List Char)
  regionIndex : Int
  prevRegionLineNo : Nat
  lineNo : Nat
  rows : List (List (List Char))
deriving DecidableEq, Repr

/-- The loop state before the first iteration. -/
def initState : ConvState :=
  ⟨⟨none, [], []⟩, [], -1, 0, 0, []⟩

/-- One iteration of the loop of `convertSmapsToCsv` on one line:
increment `lineNo`; on a region header line, bump `regionIndex`, emit the
header (at the second region) or run the schema check (later regions),
emit the finished record, parse the new region and reset the mapping
(`m.clear`); on a field line, parse and append the (name, value) pair. -/
def step (st : ConvState) (line : List Char) : Except ConvError ConvState :=
  let lineNo := st.lineNo + 1
  match isRegionLine line with
  | none => .error (.panicNoColon line)
  | some true =>
    let regionIndex := st.regionIndex + 1
    let emitted : Except ConvError (List (List (List Char)) × List (List Char)) :=
      if regionIndex > 0 then
        if regionIndex = 1 then
          match toCSVRecord st.m with
          | none => .error .panicNilRegion
          | some rec =>
            .ok (st.rows ++ [toCSVHeader st.m, rec], st.m.FieldNames)
        else
          match checkFieldNames st.m st.firstLineFieldLabels st.prevRegionLineNo with
          | some e => .error e
          | none =>
            match toCSVRecord st.m with
            | none => .error .panicNilRegion
            | some rec => .ok (st.rows ++ [rec], st.firstLineFieldLabels)
      else
        .ok (st.rows, st.firstLineFieldLabels)
    match emitted with
    | .error e => .error e
    | .ok (rows, labels) =>
      match parseRegion line with
      | none => .error .badFormat
      | some r => .ok ⟨⟨some r, [], []⟩, labels, regionIndex, lineNo, lineNo, rows⟩
  | some false =>
    match parseField line with
    | none => .error .badFormat
    | some (name, value) =>
      .ok ⟨⟨st.m.Region, st.m.FieldNames ++ [name], st.m.FieldValues ++ [value]⟩,
           st.firstLineFieldLabels, st.regionIndex, st.prevRegionLineNo, lineNo, st.rows⟩

/-- The loop of `convertSmapsToCsv` over the lines of the input. -/
def runLoop (st : ConvState) : List (List Char) → Except ConvError ConvState
  | [] => .ok st
  | l :: ls =>
    match step st l with
    | .error e => .error e
    | .ok st' => runLoop st' ls

/-- The code after the loop of `convertSmapsToCsv`: one more
`checkFieldNames` and one more record write for the in-progress mapping
(run unconditionally, with no guard on `regionIndex`). -/
def finishRun (st : ConvState) : Except ConvError (List (List (List Char))) :=
  match checkFieldNames st.m st.firstLineFieldLabels st.prevRegionLineNo with
  | some e => .error e
  | none =>
    match toCSVRecord st.m with
    | none => .error .panicNilRegion
    | some rec => .ok (st.rows ++ [rec])

/-- The loop followed by the end-of-stream epilogue, from an arbitrary
loop state. -/
def runAll (st : ConvState) (lines : List (List Char)) :
    Except ConvError (List (List (List Char))) :=
  match runLoop st lines with
  | .error e => .error e
  | .ok st' => finishRun st'

/-- Go `convertSmapsToCsv`, from the raw input byte stream to the list of
CSV rows written (each row an ordered list of string fields), or the
error that aborted the run. -/
def convertSmapsToCsv (input : List Char) :
    Except ConvError (List (List (List Char))) :=
  runAll initState (splitLines input)

/-- Go `strings.Join(record, ",")` as used by the repository's test. -/
def joinWithComma : List (List Char) → List Char
  | [] => []
  | [x] => x
  | x :: xs => x ++ ',' :: joinWithComma xs

end SmapsToCsv

namespace SmapsToCsv

/-! ## Basic lemmas about the byte-level helpers -/

theorem contains_iff_mem (l : List Char) (c : Char) :
    l.contains c = true ↔ c ∈ l := by
  simp [List.contains, List.elem_iff]

theorem cutChar_eq_none_iff (sep : Char) (l : List Char) :
    cutChar sep l = none ↔ sep ∉ l := by
  induction l with
  | nil => simp [cutChar]
  | cons c rest ih =>
    by_cases hc : c = sep
    · subst hc; simp [cutChar]
    · rw [cutChar, if_neg hc]
      cases h : cutChar sep rest with
      | none => simp [h] at ih; simp [ih, hc, Ne.symm hc]
      | some p =>
        simp only [h] at ih ⊢
        simp only [List.mem_cons]
        constructor
        · intro hcontra; cases hcontra
        · intro hnot
          exfalso
          exact absurd (ih.mpr (fun hm => hnot (Or.inr hm))) (by simp [h])

theorem cutChar_append (sep : Char) (x y : List Char) (h : sep ∉ x) :
    cutChar sep (x ++ sep :: y) = some (x, y) := by
  induction x with
  | nil => simp [cutChar]
  | cons c rest ih =>
    have hc : c ≠ sep := fun hcc => h (hcc ▸ List.mem_cons_self c rest)
    have hrest : sep ∉ rest := fun hm => h (List.mem_cons_of_mem c hm)
    have hih := ih hrest
    simp only [List.cons_append, cutChar, if_neg hc, List.append_eq, hih]

theorem cutChar_eq_some_iff (sep : Char) (l x y : List Char) :
    cutChar sep l = some (x, y) ↔ l = x ++ sep :: y ∧ sep ∉ x := by
  constructor
  · intro h
    induction l generalizing x y with
    | nil => simp [cutChar] at h
    | cons c rest ih =>
      by_cases hc : c = sep
      · subst hc
        simp [cutChar] at h
        simp [h.1, h.2]
      · rw [cutChar, if_neg hc] at h
        cases hr : cutChar sep rest with
        | none => simp [hr] at h
        | some p =>
          simp only [hr] at h
          cases p with
          | mk x' y' =>
            simp only [Option.some.injEq, Prod.mk.injEq] at h
            obtain ⟨hx, hy⟩ := h
            obtain ⟨hl, hmem⟩ := ih (x := x') (y := y') hr
            subst hx hy
            subst hl
            refine ⟨rfl, ?_⟩
            intro hm
            rcases List.mem_cons.mp hm with h' | h'
            · exact hc h'.symm
            · exact hmem h'
  · rintro ⟨hl, hmem⟩
    subst hl
    exact cutChar_append sep x y hmem

theorem cutChar_of_mem (sep : Char) (l : List Char) (h : sep ∈ l) :
    cutChar sep l =
      some (l.takeWhile (fun c => c ≠ sep), (l.dropWhile (fun c => c ≠ sep)).tail) := by
  induction l with
  | nil => cases h
  | cons c rest ih =>
    by_cases hc : c = sep
    · subst hc
      simp [cutChar, List.takeWhile_cons, List.dropWhile_cons]
    · have hmem : sep ∈ rest := by
        cases List.mem_cons.mp h with
        | inl hh => exact absurd hh.symm hc
        | inr hh => exact hh
      rw [cutChar, if_neg hc, ih hmem]
      simp [List.takeWhile_cons, List.dropWhile_cons, hc]

theorem splitLines_append (l s : List Char) (h : '\n' ∉ l) :
    splitLines (l ++ '\n' :: s) = l :: splitLines s := by
  induction l with
  | nil => simp [splitLines]
  | cons c rest ih =>
    have hc : c ≠ '\n' := fun hcc => h (hcc ▸ List.mem_cons_self c rest)
    have hrest : '\n' ∉ rest := fun hm => h (List.mem_cons_of_mem c hm)
    rw [List.cons_append, splitLines, if_neg hc, ih hrest]

theorem splitLines_flatten_terminated (lines : List (List Char))
    (h : ∀ l ∈ lines, '\n' ∉ l) :
    splitLines ((lines.map (fun l => l ++ ['\n'])).flatten) = lines := by
  induction lines with
  | nil => rfl
  | cons l rest ih =>
    have hl : '\n' ∉ l := h l (List.mem_cons_self l rest)
    have hr : ∀ x ∈ rest, '\n' ∉ x := fun x hx => h x (List.mem_cons_of_mem l hx)
    rw [List.map_cons, List.flatten_cons, List.append_assoc, List.singleton_append,
      splitLines_append l _ hl, ih hr]

theorem dropWhile_space_replicate (k : Nat) (x : List Char) :
    (List.replicate k ' ' ++ x).dropWhile isSpaceChar = x.dropWhile isSpaceChar := by
  induction k with
  | zero => simp
  | succ n ih =>
    rw [List.replicate_succ, List.cons_append, List.dropWhile_cons]
    simp only [isSpaceChar]
    simp [ih]

theorem trimSpace_replicate_space_append (k : Nat) (x : List Char) :
    trimSpace (List.replicate k ' ' ++ x) = trimSpace x := by
  rw [trimSpace, trimSpace, dropWhile_space_replicate]

end SmapsToCsv

namespace SmapsToCsv

theorem contains_eq_decide_mem (l : List Char) (c : Char) :
    l.contains c = decide (c ∈ l) := by
  by_cases h : c ∈ l
  · rw [(contains_iff_mem l c).mpr h, decide_eq_true h]
  · rw [decide_eq_false h]
    cases hb : l.contains c with
    | false => rfl
    | true => exact absurd ((contains_iff_mem l c).mp hb) h

/-- Helper: full characterization of the classifier in terms of the prefix
before the first colon. -/
theorem isRegionLine_eq_spec (l : List Char) :
    isRegionLine l =
      if ':' ∈ l then some (decide (' ' ∈ l.takeWhile (fun c => c ≠ ':')))
      else none := by
  by_cases hm : ':' ∈ l
  · rw [if_pos hm]
    simp only [isRegionLine, cutChar_of_mem ':' l hm, contains_eq_decide_mem]
  · rw [if_neg hm]
    simp only [isRegionLine, (cutChar_eq_none_iff ':' l).mpr hm]

/-- Helper: full characterization of the field parser: split at the first
colon, trim the value's leading spaces, and for any name other than
`VmFlags` truncate the value at the first space. -/
theorem parseField_eq_spec (l : List Char) :
    parseField l =
      if ':' ∈ l then
        some (l.takeWhile (fun c => c ≠ ':'),
          if l.takeWhile (fun c => c ≠ ':') = "VmFlags".toList
          then ((l.dropWhile (fun c => c ≠ ':')).tail).dropWhile (fun c => c = ' ')
          else ((((l.dropWhile (fun c => c ≠ ':')).tail).dropWhile
                  (fun c => c = ' ')).takeWhile (fun c => c ≠ ' ')))
      else none := by
  by_cases hm : ':' ∈ l
  · rw [if_pos hm]
    by_cases hvm : l.takeWhile (fun c => c ≠ ':') = "VmFlags".toList
    · simp only [parseField, cutChar_of_mem ':' l hm, if_pos hvm]
    · simp only [parseField, cutChar_of_mem ':' l hm, if_neg hvm]
      by_cases hsp : ' ' ∈ ((l.dropWhile (fun c => c ≠ ':')).tail).dropWhile (fun c => c = ' ')
      · simp only [cutChar_of_mem ' ' _ hsp]
      · simp only [(cutChar_eq_none_iff ' ' _).mpr hsp]
        have heq : (((l.dropWhile (fun c => c ≠ ':')).tail).dropWhile
            (fun c => c = ' ')).takeWhile (fun c => c ≠ ' ') =
            ((l.dropWhile (fun c => c ≠ ':')).tail).dropWhile (fun c => c = ' ') := by
          rw [List.takeWhile_eq_self_iff]
          intro x hx
          simp only [decide_eq_true_eq]
          exact fun hxx => hsp (hxx ▸ hx)
        rw [heq]
  · rw [if_neg hm]
    simp only [parseField, (cutChar_eq_none_iff ':' l).mpr hm]

/-- Helper: whenever the classifier returns a verdict (colon present),
the field parser succeeds. -/
theorem parseField_isSome_of_mem (l : List Char) (hm : ':' ∈ l) :
    parseField l = some (l.takeWhile (fun c => c ≠ ':'),
      if l.takeWhile (fun c => c ≠ ':') = "VmFlags".toList
      then ((l.dropWhile (fun c => c ≠ ':')).tail).dropWhile (fun c => c = ' ')
      else ((((l.dropWhile (fun c => c ≠ ':')).tail).dropWhile
              (fun c => c = ' ')).takeWhile (fun c => c ≠ ' '))) := by
  rw [parseField_eq_spec, if_pos hm]

/-- Helper: building direction of the region parser: a line assembled
from six delimiter-free components parses into exactly those components,
pathname trimmed. -/
theorem parseRegion_build (a b c d e f g : List Char)
    (ha : '-' ∉ a) (hb : ' ' ∉ b) (hc : ' ' ∉ c) (hd : ' ' ∉ d)
    (he : ' ' ∉ e) (hf : ' ' ∉ f) :
    parseRegion (a ++ '-' :: (b ++ ' ' :: (c ++ ' ' :: (d ++ ' ' ::
        (e ++ ' ' :: (f ++ ' ' :: g)))))) =
      some ⟨a, b, c, d, e, f, trimSpace g⟩ := by
  simp only [parseRegion, cutChar_append '-' a _ ha, cutChar_append ' ' b _ hb,
    cutChar_append ' ' c _ hc, cutChar_append ' ' d _ hd,
    cutChar_append ' ' e _ he, cutChar_append ' ' f _ hf]

end SmapsToCsv

namespace SmapsToCsv

/-- Claim C3: the classifier locates the first colon of the line; with no
colon it hits the fatal malformed-input condition (the Go panic, modelled
by `none`); with a colon it classifies the line as a region header
(`some true`) exactly when an ASCII space occurs in the prefix before the
first colon, and as a field line (`some false`) otherwise. -/
theorem classifier_spec (l : List Char) :
    isRegionLine l =
      if ':' ∈ l then some (decide (' ' ∈ l.takeWhile (fun c => c ≠ ':')))
      else none :=
  isRegionLine_eq_spec l

/-- Claim C4: a field line splits at the first colon into name and value;
the value's leading spaces are trimmed; when the name is `VmFlags` the
value is the entire remainder, otherwise it is the first
whitespace-delimited token (anything after it, e.g. a `kB` suffix, is
discarded).  The two example lines of the specification evaluate as
claimed. -/
theorem fieldParser_spec :
    (∀ l : List Char,
      parseField l =
        if ':' ∈ l then
          some (l.takeWhile (fun c => c ≠ ':'),
            if l.takeWhile (fun c => c ≠ ':') = "VmFlags".toList
            then ((l.dropWhile (fun c => c ≠ ':')).tail).dropWhile (fun c => c = ' ')
            else ((((l.dropWhile (fun c => c ≠ ':')).tail).dropWhile
                    (fun c => c = ' ')).takeWhile (fun c => c ≠ ' ')))
        else none) ∧
    parseField "VmFlags: rd wr mr mw me dw".toList =
      some ("VmFlags".toList, "rd wr mr mw me dw".toList) ∧
    parseField "Rss:      120 kB".toList = some ("Rss".toList, "120".toList) :=
  ⟨parseField_eq_spec, rfl, rfl⟩

/-- Claim C10: `parseField` returns the bad-format error exactly when the
line has no colon; any field line with a colon parses successfully, and
for a non-`VmFlags` name everything after the first token of the value —
including a missing `kB` unit suffix, as in the example — is silently
discarded without error. -/
theorem parseField_error_iff_no_colon :
    (∀ l : List Char, parseField l = none ↔ ':' ∉ l) ∧
    parseField "Rss:      120".toList = some ("Rss".toList, "120".toList) := by
  refine ⟨fun l => ⟨fun h hm => ?_, fun hm => ?_⟩, rfl⟩
  · rw [parseField_isSome_of_mem l hm] at h
    cases h
  · simp only [parseField, (cutChar_eq_none_iff ':' l).mpr hm]

/-- Claim C7: the region parser accepts a line exactly when it decomposes
as six delimiter-separated components (address-start up to the first `-`,
then address-end, permissions, offset, device and inode each up to the
next space) followed by an arbitrary remainder; the components are passed
through verbatim with no content validation, and the pathname is the
remainder trimmed of leading/trailing whitespace.  Consequently parsing
fails (bad-format, which aborts the run) exactly when one of the six
delimiters is missing. -/
theorem parseRegion_characterization (l : List Char) (r : Region) :
    parseRegion l = some r ↔
      ∃ a b c d e f g,
        l = a ++ '-' :: (b ++ ' ' :: (c ++ ' ' :: (d ++ ' ' ::
            (e ++ ' ' :: (f ++ ' ' :: g))))) ∧
        '-' ∉ a ∧ ' ' ∉ b ∧ ' ' ∉ c ∧ ' ' ∉ d ∧ ' ' ∉ e ∧ ' ' ∉ f ∧
        r = ⟨a, b, c, d, e, f, trimSpace g⟩ := by
  constructor
  · intro h
    simp only [parseRegion] at h
    cases h1 : cutChar '-' l with
    | none => simp [h1] at h
    | some p1 =>
    obtain ⟨a, r1⟩ := p1
    simp only [h1] at h
    cases h2 : cutChar ' ' r1 with
    | none => simp [h2] at h
    | some p2 =>
    obtain ⟨b, r2⟩ := p2
    simp only [h2] at h
    cases h3 : cutChar ' ' r2 with
    | none => simp [h3] at h
    | some p3 =>
    obtain ⟨c, r3⟩ := p3
    simp only [h3] at h
    cases h4 : cutChar ' ' r3 with
    | none => simp [h4] at h
    | some p4 =>
    obtain ⟨d, r4⟩ := p4
    simp only [h4] at h
    cases h5 : cutChar ' ' r4 with
    | none => simp [h5] at h
    | some p5 =>
    obtain ⟨e, r5⟩ := p5
    simp only [h5] at h
    cases h6 : cutChar ' ' r5 with
    | none => simp [h6] at h
    | some p6 =>
    obtain ⟨f, r6⟩ := p6
    simp only [h6, Option.some.injEq] at h
    obtain ⟨hl1, hm1⟩ := (cutChar_eq_some_iff '-' l a r1).mp h1
    obtain ⟨hl2, hm2⟩ := (cutChar_eq_some_iff ' ' r1 b r2).mp h2
    obtain ⟨hl3, hm3⟩ := (cutChar_eq_some_iff ' ' r2 c r3).mp h3
    obtain ⟨hl4, hm4⟩ := (cutChar_eq_some_iff ' ' r3 d r4).mp h4
    obtain ⟨hl5, hm5⟩ := (cutChar_eq_some_iff ' ' r4 e r5).mp h5
    obtain ⟨hl6, hm6⟩ := (cutChar_eq_some_iff ' ' r5 f r6).mp h6
    refine ⟨a, b, c, d, e, f, r6, ?_, hm1, hm2, hm3, hm4, hm5, hm6, h.symm⟩
    rw [hl1, hl2, hl3, hl4, hl5, hl6]
  · rintro ⟨a, b, c, d, e, f, g, hl, ha, hb, hc, hd, he, hf, hr⟩
    subst hl hr
    exact parseRegion_build a b c d e f g ha hb hc hd he hf

/-- Claim C1 (code bug): a run over an input with a single region and
matching field names does not behave as specified.  With a trailing
newline the run aborts with a bogus field-names mismatch (the schema
`firstLineFieldLabels` is only captured when a second region header is
seen, so the final check compares against the nil slice); without a
trailing newline the final field line is discarded by `readLine` and the
run "succeeds" with one data row and no header row at all. -/
theorem singleRegion_run_diverges :
    convertSmapsToCsv ("a-b p 0 0:0 0 x\nSize:4 kB\n".toList) =
      .error (.fieldNamesMismatch 1 [] ["Size".toList]) ∧
    convertSmapsToCsv ("a-b p 0 0:0 0 x\nSize:4 kB".toList) =
      .ok [["a".toList, "b".toList, "p".toList, "0".toList,
            "0:0".toList, "0".toList, "x".toList]] :=
  ⟨rfl, rfl⟩

/-- Claim C8 (code bug): on an input with no region header line the code
does not "emit nothing and terminate cleanly".  On the empty input the
final unconditional `w.Write(m.toCSVRecord())` dereferences the nil
`m.Region` pointer and panics; on a field-only input the final
`checkFieldNames` aborts with a bogus mismatch against the never-captured
schema. -/
theorem emptyInput_panics :
    convertSmapsToCsv [] = .error .panicNilRegion ∧
    convertSmapsToCsv ("Size:4 kB\n".toList) =
      .error (.fieldNamesMismatch 0 [] ["Size".toList]) :=
  ⟨rfl, rfl⟩

end SmapsToCsv

namespace SmapsToCsv

theorem runAll_cons (st : ConvState) (l : List Char) (ls : List (List Char)) :
    runAll st (l :: ls) =
      match step st l with
      | .error e => .error e
      | .ok st' => runAll st' ls := by
  cases h : step st l <;> simp [runAll, runLoop, h]

theorem runAll_append (st : ConvState) (xs ys : List (List Char)) :
    runAll st (xs ++ ys) =
      match runLoop st xs with
      | .error e => .error e
      | .ok st' => runAll st' ys := by
  induction xs generalizing st with
  | nil => simp [runLoop]
  | cons l rest ih =>
    rw [List.cons_append, runAll_cons]
    cases h : step st l with
    | error e => simp [runLoop, h]
    | ok st' => simp [runLoop, h, ih st']

theorem dropWhile_isSpace_replicate_x (k : Nat) :
    (List.replicate k 'x').dropWhile isSpaceChar = List.replicate k 'x' := by
  cases k with
  | zero => rfl
  | succ n =>
    rw [List.replicate_succ, List.dropWhile_cons]
    simp [isSpaceChar]

theorem trimSpace_replicate_x (k : Nat) :
    trimSpace (List.replicate k 'x') = List.replicate k 'x' := by
  rw [trimSpace, dropWhile_isSpace_replicate_x, List.reverse_replicate,
    dropWhile_isSpace_replicate_x, List.reverse_replicate]

/-- Claim C6: parsing a well-formed region header line — six
delimiter-free components, then one mandatory space, optional further
padding spaces, and a pathname with no surrounding whitespace — and then
re-serializing the seven region columns joined by the delimiter
round-trips the components byte-for-byte. -/
theorem regionRoundtrip (a b c d e f p : List Char) (k : Nat)
    (ha : '-' ∉ a) (hb : ' ' ∉ b) (hc : ' ' ∉ c) (hd : ' ' ∉ d)
    (he : ' ' ∉ e) (hf : ' ' ∉ f) (hp : trimSpace p = p) :
    parseRegion (a ++ '-' :: (b ++ ' ' :: (c ++ ' ' :: (d ++ ' ' ::
        (e ++ ' ' :: (f ++ ' ' :: (List.replicate k ' ' ++ p))))))) =
      some ⟨a, b, c, d, e, f, p⟩ ∧
    toCSVRecord ⟨some ⟨a, b, c, d, e, f, p⟩, [], []⟩ =
      some [a, b, c, d, e, f, p] ∧
    joinWithComma [a, b, c, d, e, f, p] =
      a ++ ',' :: (b ++ ',' :: (c ++ ',' :: (d ++ ',' :: (e ++ ',' ::
        (f ++ ',' :: p))))) := by
  refine ⟨?_, ?_, ?_⟩
  · rw [parseRegion_build a b c d e f _ ha hb hc hd he hf,
      trimSpace_replicate_space_append, hp]
  · simp [toCSVRecord]
  · simp [joinWithComma]

/-- Witness for C6 at the specification's example line: the line
decomposes into the stated components (27 padding spaces), parses into
exactly those seven columns, and re-serializes to the expected string. -/
theorem regionRoundtrip_witness :
    ("4d400283000".toList ++ '-' :: ("4d400284000".toList ++ ' ' ::
        ("---p".toList ++ ' ' :: ("00000000".toList ++ ' ' ::
        ("00:00".toList ++ ' ' :: ("0".toList ++ ' ' ::
        (List.replicate 27 ' ' ++ "[anon:partition_alloc]".toList))))))
      = "4d400283000-4d400284000 ---p 00000000 00:00 0                            [anon:partition_alloc]".toList) ∧
    parseRegion "4d400283000-4d400284000 ---p 00000000 00:00 0                            [anon:partition_alloc]".toList
      = some ⟨"4d400283000".toList, "4d400284000".toList, "---p".toList,
             "00000000".toList, "00:00".toList, "0".toList,
             "[anon:partition_alloc]".toList⟩ ∧
    joinWithComma ["4d400283000".toList, "4d400284000".toList, "---p".toList,
        "00000000".toList, "00:00".toList, "0".toList,
        "[anon:partition_alloc]".toList]
      = "4d400283000,4d400284000,---p,00000000,00:00,0,[anon:partition_alloc]".toList := by
  have h := regionRoundtrip "4d400283000".toList "4d400284000".toList
    "---p".toList "00000000".toList "00:00".toList "0".toList
    "[anon:partition_alloc]".toList 27
    (by decide) (by decide) (by decide) (by decide) (by decide) (by decide)
    (by rfl)
  refine ⟨rfl, ?_, ?_⟩
  · have h1 := h.1
    rw [show ("4d400283000".toList ++ '-' :: ("4d400284000".toList ++ ' ' ::
        ("---p".toList ++ ' ' :: ("00000000".toList ++ ' ' ::
        ("00:00".toList ++ ' ' :: ("0".toList ++ ' ' ::
        (List.replicate 27 ' ' ++ "[anon:partition_alloc]".toList))))))
      = "4d400283000-4d400284000 ---p 00000000 00:00 0                            [anon:partition_alloc]".toList)
      from rfl] at h1
    exact h1
  · rw [h.2.2]
    rfl

end SmapsToCsv

namespace SmapsToCsv

/-- A two-region input whose first region header carries a pathname of
`k` bytes, making that line `14 + k` bytes long. -/
def longPathInput (k : Nat) : List Char :=
  "a-b p 0 0:0 0 ".toList ++
    (List.replicate k 'x' ++ '\n' :: "c-d p 0 0:0 0 y\n".toList)

set_option maxRecDepth 100000 in
/-- Counterexample to claim C5 as stated: this input contains a line of
314 bytes — well beyond the 256-byte `maxLineLength` — yet the run
succeeds and produces a header row and two data rows. -/
theorem longLine_cap_counterexample :
    (splitLines (longPathInput 300)).any
        (fun l => decide (256 < l.length)) = true ∧
    convertSmapsToCsv (longPathInput 300) =
      .ok [fixedHeaderCols,
           ["a".toList, "b".toList, "p".toList, "0".toList, "0:0".toList,
            "0".toList, List.replicate 300 'x'],
           ["c".toList, "d".toList, "p".toList, "0".toList, "0:0".toList,
            "0".toList, "y".toList]] :=
  ⟨rfl, rfl⟩

/-- Claim C5 (amended): the 256-byte `maxLineLength` only sizes the
buffered reader; `ReadBytes` accumulates across buffer refills, so a line
longer than 256 bytes is read in full and the run proceeds normally,
producing its data rows. -/
theorem longLine_no_cap (k : Nat) (hk : 243 ≤ k) :
    (∃ l ∈ splitLines (longPathInput k), 256 < l.length) ∧
    convertSmapsToCsv (longPathInput k) =
      .ok [fixedHeaderCols,
           ["a".toList, "b".toList, "p".toList, "0".toList, "0:0".toList,
            "0".toList, List.replicate k 'x'],
           ["c".toList, "d".toList, "p".toList, "0".toList, "0:0".toList,
            "0".toList, "y".toList]] := by
  have hnl : '\n' ∉ "a-b p 0 0:0 0 ".toList ++ List.replicate k 'x' := by
    intro hm
    rcases List.mem_append.mp hm with h | h
    · exact absurd h (by decide)
    · exact absurd (List.mem_replicate.mp h).2 (by decide)
  have hsplit : splitLines (longPathInput k) =
      ("a-b p 0 0:0 0 ".toList ++ List.replicate k 'x') ::
        ["c-d p 0 0:0 0 y".toList] := by
    rw [longPathInput, ← List.append_assoc,
      splitLines_append _ _ hnl]
    rfl
  constructor
  · refine ⟨"a-b p 0 0:0 0 ".toList ++ List.replicate k 'x', ?_, ?_⟩
    · rw [hsplit]; exact List.mem_cons_self _ _
    · rw [List.length_append, List.length_replicate]
      have : ("a-b p 0 0:0 0 ".toList).length = 14 := rfl
      omega
  · have hreg : isRegionLine ("a-b p 0 0:0 0 ".toList ++ List.replicate k 'x') =
        some true := by
      rw [show "a-b p 0 0:0 0 ".toList ++ List.replicate k 'x' =
          "a-b p 0 0".toList ++ ':' :: ("0 0 ".toList ++ List.replicate k 'x')
        from rfl]
      simp only [isRegionLine,
        cutChar_append ':' ("a-b p 0 0".toList)
          ("0 0 ".toList ++ List.replicate k 'x') (by decide)]
      rfl
    have hpr : parseRegion ("a-b p 0 0:0 0 ".toList ++ List.replicate k 'x') =
        some ⟨"a".toList, "b".toList, "p".toList, "0".toList, "0:0".toList,
              "0".toList, List.replicate k 'x'⟩ := by
      rw [show "a-b p 0 0:0 0 ".toList ++ List.replicate k 'x' =
          "a".toList ++ '-' :: ("b".toList ++ ' ' :: ("p".toList ++ ' ' ::
            ("0".toList ++ ' ' :: ("0:0".toList ++ ' ' :: ("0".toList ++ ' ' ::
              List.replicate k 'x'))))) from rfl]
      rw [parseRegion_build _ _ _ _ _ _ _ (by decide) (by decide) (by decide)
        (by decide) (by decide) (by decide), trimSpace_replicate_x]
    have hstep1 : step initState ("a-b p 0 0:0 0 ".toList ++ List.replicate k 'x') =
        .ok ⟨⟨some ⟨"a".toList, "b".toList, "p".toList, "0".toList,
              "0:0".toList, "0".toList, List.replicate k 'x'⟩, [], []⟩,
             [], 0, 1, 1, []⟩ := by
      simp only [step, initState, hreg, hpr]
      rfl
    rw [convertSmapsToCsv, hsplit, runAll_cons, hstep1]
    rfl

/-- Witness for C5's amended theorem at the concrete length 300. -/
theorem longLine_no_cap_witness :
    243 ≤ 300 ∧
    ((∃ l ∈ splitLines (longPathInput 300), 256 < l.length) ∧
     convertSmapsToCsv (longPathInput 300) =
       .ok [fixedHeaderCols,
            ["a".toList, "b".toList, "p".toList, "0".toList, "0:0".toList,
             "0".toList, List.replicate 300 'x'],
            ["c".toList, "d".toList, "p".toList, "0".toList, "0:0".toList,
             "0".toList, "y".toList]]) :=
  ⟨by omega, longLine_no_cap 300 (by omega)⟩

end SmapsToCsv

namespace SmapsToCsv

/-- A well-formed two-region input used to exercise the handling of field
lines that precede the first region header. -/
def coreInput : List Char :=
  "a-b p 0 0:0 0 x\nSize:1 kB\nc-d p 0 0:0 0 y\nSize:2 kB\n".toList

/-- The rows the run produces on `coreInput`. -/
def coreRows : List (List (List Char)) :=
  [fixedHeaderCols ++ ["Size".toList],
   ["a".toList, "b".toList, "p".toList, "0".toList, "0:0".toList,
    "0".toList, "x".toList, "1".toList],
   ["c".toList, "d".toList, "p".toList, "0".toList, "0:0".toList,
    "0".toList, "y".toList, "2".toList]]

/-- Counterexample to claim C9 as stated: prepending the field line
`Rss:9 kB` before the first region header is not a fatal format error —
the run succeeds and emits exactly the rows of the unprefixed input, with
no trace of the `Rss` field in any emitted record. -/
theorem preRegionField_dropped_cex :
    convertSmapsToCsv ("Rss:9 kB\n".toList ++ coreInput) = .ok coreRows ∧
    convertSmapsToCsv coreInput = .ok coreRows :=
  ⟨rfl, rfl⟩

/-- Claim C9 (amended): a field line preceding the first region header is
parsed and appended to the still-region-less mapping, then silently wiped
by `m.clear()` when the first region header arrives: it raises no error
and leaves no trace in the output, which equals that of the input without
the leading field line. -/
theorem preRegionField_silently_dropped (pre : List Char)
    (h1 : ':' ∈ pre) (h2 : ' ' ∉ pre.takeWhile (fun c => c ≠ ':'))
    (h3 : '\n' ∉ pre) :
    convertSmapsToCsv (pre ++ '\n' :: coreInput) =
      convertSmapsToCsv coreInput ∧
    convertSmapsToCsv coreInput = .ok coreRows := by
  have hsplit : splitLines (pre ++ '\n' :: coreInput) =
      pre :: splitLines coreInput := splitLines_append pre _ h3
  have hclass : isRegionLine pre = some false := by
    rw [isRegionLine_eq_spec, if_pos h1, decide_eq_false h2]
  have hstep : step initState pre =
      .ok ⟨⟨none, [pre.takeWhile (fun c => c ≠ ':')],
            [if pre.takeWhile (fun c => c ≠ ':') = "VmFlags".toList
             then ((pre.dropWhile (fun c => c ≠ ':')).tail).dropWhile
                    (fun c => c = ' ')
             else ((((pre.dropWhile (fun c => c ≠ ':')).tail).dropWhile
                     (fun c => c = ' ')).takeWhile (fun c => c ≠ ' '))]⟩,
           [], -1, 0, 1, []⟩ := by
    simp only [step, initState, hclass, parseField_isSome_of_mem pre h1]
    rfl
  refine ⟨?_, rfl⟩
  rw [convertSmapsToCsv, hsplit, runAll_cons, hstep]
  rfl

/-- Witness for C9's amended theorem at the concrete field line
`Swap:0 kB`. -/
theorem preRegionField_silently_dropped_witness :
    (':' ∈ "Swap:0 kB".toList) ∧
    (' ' ∉ ("Swap:0 kB".toList).takeWhile (fun c => c ≠ ':')) ∧
    ('\n' ∉ "Swap:0 kB".toList) ∧
    (convertSmapsToCsv ("Swap:0 kB".toList ++ '\n' :: coreInput) =
        convertSmapsToCsv coreInput ∧
      convertSmapsToCsv coreInput = .ok coreRows) :=
  ⟨by decide, by decide, by decide,
   preRegionField_silently_dropped "Swap:0 kB".toList
     (by decide) (by decide) (by decide)⟩

end SmapsToCsv

namespace SmapsToCsv

/-! ## Structured inputs for the whole-run theorems

A `Block` is one region of the input text: its header line together with
the field lines that follow it.  `streamOf` flattens a list of blocks
back into the raw byte stream (every line newline-terminated). -/

/-- One region of the input text: header line plus its field lines. -/
abbrev Block := List Char × List (List Char)

/-- The input lines contributed by one block. -/
def blockLines (b : Block) : List (List Char) := b.1 :: b.2

/-- A line that the classifier accepts as a region header and the region
parser accepts, and that contains no newline byte. -/
def wfRegionLine (l : List Char) : Prop :=
  '\n' ∉ l ∧ isRegionLine l = some true ∧ (parseRegion l).isSome

/-- A line that the classifier classifies as a field line and that
contains no newline byte. -/
def wfFieldLine (l : List Char) : Prop :=
  '\n' ∉ l ∧ isRegionLine l = some false

/-- A block whose header is a well-formed region line and whose remaining
lines are well-formed field lines. -/
def wfBlock (b : Block) : Prop :=
  wfRegionLine b.1 ∧ ∀ l ∈ b.2, wfFieldLine l

/-- The field name the parser extracts from a field line. -/
def fieldNameOf (l : List Char) : List Char :=
  ((parseField l).getD ([], [])).1

/-- The field value the parser extracts from a field line. -/
def fieldValueOf (l : List Char) : List Char :=
  ((parseField l).getD ([], [])).2

/-- The field-name sequence a block reports, in encounter order. -/
def blockNames (b : Block) : List (List Char) := b.2.map fieldNameOf

/-- The raw byte stream of a block list: all lines, each
newline-terminated. -/
def streamOf (blocks : List Block) : List Char :=
  (((blocks.map blockLines).flatten).map (fun l => l ++ ['\n'])).flatten

theorem colon_mem_of_field (l : List Char)
    (h : isRegionLine l = some false) : ':' ∈ l := by
  by_contra hm
  rw [isRegionLine_eq_spec, if_neg hm] at h
  cases h

theorem parseField_eq_of_field (l : List Char)
    (h : isRegionLine l = some false) :
    parseField l = some (fieldNameOf l, fieldValueOf l) := by
  have hm := colon_mem_of_field l h
  have hp := parseField_isSome_of_mem l hm
  rw [hp]
  simp [fieldNameOf, fieldValueOf, hp]

theorem newline_not_mem_of_wf (blocks : List Block)
    (h : ∀ b ∈ blocks, wfBlock b) :
    ∀ l ∈ (blocks.map blockLines).flatten, '\n' ∉ l := by
  intro l hl
  rw [List.mem_flatten] at hl
  obtain ⟨L, hL, hlL⟩ := hl
  rw [List.mem_map] at hL
  obtain ⟨b, hb, rfl⟩ := hL
  have hwb := h b hb
  rcases List.mem_cons.mp hlL with h' | h'
  · exact h' ▸ hwb.1.1
  · exact (hwb.2 l h').1

theorem runLoop_append (st : ConvState) (xs ys : List (List Char)) :
    runLoop st (xs ++ ys) =
      match runLoop st xs with
      | .error e => .error e
      | .ok st' => runLoop st' ys := by
  induction xs generalizing st with
  | nil => rfl
  | cons l rest ih =>
    rw [List.cons_append]
    show (match step st l with
          | Except.error e => Except.error e
          | Except.ok st' => runLoop st' (rest ++ ys)) = _
    cases h : step st l with
    | error e => simp [runLoop, h]
    | ok st' => simp [runLoop, h, ih st']

theorem runLoop_fieldLines (fs : List (List Char)) (st : ConvState)
    (h : ∀ l ∈ fs, wfFieldLine l) :
    runLoop st fs = .ok ⟨⟨st.m.Region,
        st.m.FieldNames ++ fs.map fieldNameOf,
        st.m.FieldValues ++ fs.map fieldValueOf⟩,
      st.firstLineFieldLabels, st.regionIndex, st.prevRegionLineNo,
      st.lineNo + fs.length, st.rows⟩ := by
  induction fs generalizing st with
  | nil => simp [runLoop]
  | cons l rest ih =>
    have hl := h l (List.mem_cons_self _ _)
    have hstep : step st l = .ok ⟨⟨st.m.Region,
        st.m.FieldNames ++ [fieldNameOf l],
        st.m.FieldValues ++ [fieldValueOf l]⟩,
      st.firstLineFieldLabels, st.regionIndex, st.prevRegionLineNo,
      st.lineNo + 1, st.rows⟩ := by
      simp only [step, hl.2, parseField_eq_of_field l hl.2]
    show (match step st l with
          | Except.error e => Except.error e
          | Except.ok st' => runLoop st' rest) = _
    rw [hstep]
    show runLoop _ rest = _
    rw [ih _ (fun x hx => h x (List.mem_cons_of_mem _ hx))]
    simp only [List.map_cons, List.length_cons, List.append_assoc,
      List.singleton_append]
    have harith : st.lineNo + 1 + rest.length = st.lineNo + (rest.length + 1) := by
      omega
    rw [harith]

end SmapsToCsv

namespace SmapsToCsv

theorem step_region_first (st : ConvState) (l : List Char) (r : Region)
    (hcls : isRegionLine l = some true) (hpr : parseRegion l = some r)
    (hidx : st.regionIndex = -1) :
    step st l = .ok ⟨⟨some r, [], []⟩, st.firstLineFieldLabels, 0,
      st.lineNo + 1, st.lineNo + 1, st.rows⟩ := by
  simp only [step, hcls, hpr, hidx]
  norm_num

theorem step_region_second (st : ConvState) (l : List Char) (r r₀ : Region)
    (hcls : isRegionLine l = some true) (hpr : parseRegion l = some r)
    (hidx : st.regionIndex = 0) (hreg : st.m.Region = some r₀) :
    step st l = .ok ⟨⟨some r, [], []⟩, st.m.FieldNames, 1,
      st.lineNo + 1, st.lineNo + 1,
      st.rows ++ [toCSVHeader st.m,
        [r₀.AddressStart, r₀.AddressEnd, r₀.Perms, r₀.Offset, r₀.Dev,
         r₀.Inode, r₀.Pathname] ++ st.m.FieldValues]⟩ := by
  simp only [step, hcls, hpr, hidx, toCSVRecord, hreg]
  norm_num

theorem step_region_later (st : ConvState) (l : List Char) (r r₀ : Region)
    (hcls : isRegionLine l = some true) (hpr : parseRegion l = some r)
    (hidx : 1 ≤ st.regionIndex) (hreg : st.m.Region = some r₀)
    (hmatch : st.m.FieldNames = st.firstLineFieldLabels) :
    step st l = .ok ⟨⟨some r, [], []⟩, st.firstLineFieldLabels,
      st.regionIndex + 1, st.lineNo + 1, st.lineNo + 1,
      st.rows ++ [[r₀.AddressStart, r₀.AddressEnd, r₀.Perms, r₀.Offset,
        r₀.Dev, r₀.Inode, r₀.Pathname] ++ st.m.FieldValues]⟩ := by
  have hgt : st.regionIndex + 1 > 0 := by omega
  have hne : ¬(st.regionIndex + 1 = 1) := by omega
  simp only [step, hcls, hpr, checkFieldNames, if_pos hmatch,
    if_pos hgt, if_neg hne, toCSVRecord, hreg]

theorem step_region_mismatch (st : ConvState) (l : List Char)
    (hcls : isRegionLine l = some true)
    (hidx : 1 ≤ st.regionIndex)
    (hmm : st.m.FieldNames ≠ st.firstLineFieldLabels) :
    step st l = .error (.fieldNamesMismatch st.prevRegionLineNo
      st.firstLineFieldLabels st.m.FieldNames) := by
  have hgt : st.regionIndex + 1 > 0 := by omega
  have hne : ¬(st.regionIndex + 1 = 1) := by omega
  simp only [step, hcls, checkFieldNames, if_neg hmm,
    if_pos hgt, if_neg hne]

theorem finishRun_mismatch (st : ConvState)
    (hmm : st.m.FieldNames ≠ st.firstLineFieldLabels) :
    finishRun st = .error (.fieldNamesMismatch st.prevRegionLineNo
      st.firstLineFieldLabels st.m.FieldNames) := by
  simp only [finishRun, checkFieldNames, if_neg hmm]

/-- From a state holding a finished mapping whose field names disagree
with the captured schema, processing any further well-formed blocks (or
hitting end-of-stream) aborts with the mismatch error built from that
state. -/
theorem runAll_mismatch_state (st : ConvState) (post : List Block)
    (hpost : ∀ b ∈ post, wfBlock b)
    (hidx : 1 ≤ st.regionIndex)
    (hmm : st.m.FieldNames ≠ st.firstLineFieldLabels) :
    runAll st ((post.map blockLines).flatten) =
      .error (.fieldNamesMismatch st.prevRegionLineNo
        st.firstLineFieldLabels st.m.FieldNames) := by
  cases post with
  | nil =>
    show finishRun st = _
    exact finishRun_mismatch st hmm
  | cons b post' =>
    have hb := hpost b (List.mem_cons_self _ _)
    rw [List.map_cons, List.flatten_cons]
    rw [show blockLines b ++ (post'.map blockLines).flatten =
        b.1 :: (b.2 ++ (post'.map blockLines).flatten) from rfl]
    rw [runAll_cons, step_region_mismatch st b.1 hb.1.2.1 hidx hmm]
end SmapsToCsv

namespace SmapsToCsv

/-- Processing one whole well-formed block from a steady state (schema
captured, at least two regions seen, current mapping matching the
schema): the previous record is emitted, the new region is parsed, and
the block's fields are accumulated. -/
theorem runLoop_block_from_steady (st : ConvState) (b : Block)
    (hb : wfBlock b) (hidx : 1 ≤ st.regionIndex) (r₀ : Region)
    (hr₀ : st.m.Region = some r₀)
    (hmatch : st.m.FieldNames = st.firstLineFieldLabels)
    (r : Region) (hr : parseRegion b.1 = some r) :
    runLoop st (blockLines b) =
      .ok ⟨⟨some r, blockNames b, b.2.map fieldValueOf⟩,
        st.firstLineFieldLabels, st.regionIndex + 1, st.lineNo + 1,
        st.lineNo + 1 + b.2.length,
        st.rows ++ [[r₀.AddressStart, r₀.AddressEnd, r₀.Perms, r₀.Offset,
          r₀.Dev, r₀.Inode, r₀.Pathname] ++ st.m.FieldValues]⟩ := by
  show (match step st b.1 with
        | Except.error e => Except.error e
        | Except.ok st' => runLoop st' b.2) = _
  rw [step_region_later st b.1 r r₀ hb.1.2.1 hr hidx hr₀ hmatch]
  show runLoop _ b.2 = _
  rw [runLoop_fieldLines b.2 _ hb.2]
  rfl

/-- Processing one whole well-formed block from the state right after the
first block: the header row and the first record are emitted, the schema
is captured, and the block's fields are accumulated. -/
theorem runLoop_block_second (st : ConvState) (b : Block)
    (hb : wfBlock b) (hidx : st.regionIndex = 0) (r₀ : Region)
    (hr₀ : st.m.Region = some r₀)
    (r : Region) (hr : parseRegion b.1 = some r) :
    runLoop st (blockLines b) =
      .ok ⟨⟨some r, blockNames b, b.2.map fieldValueOf⟩,
        st.m.FieldNames, 1, st.lineNo + 1, st.lineNo + 1 + b.2.length,
        st.rows ++ [toCSVHeader st.m,
          [r₀.AddressStart, r₀.AddressEnd, r₀.Perms, r₀.Offset,
           r₀.Dev, r₀.Inode, r₀.Pathname] ++ st.m.FieldValues]⟩ := by
  show (match step st b.1 with
        | Except.error e => Except.error e
        | Except.ok st' => runLoop st' b.2) = _
  rw [step_region_second st b.1 r r₀ hb.1.2.1 hr hidx hr₀]
  show runLoop _ b.2 = _
  rw [runLoop_fieldLines b.2 _ hb.2]
  rfl

/-- From a steady state, processing an offending block (field names
disagreeing with the captured schema) followed by any further well-formed
blocks aborts with the mismatch error that names the offending block's
header line and both sequences. -/
theorem runAll_offending_from_steady (st : ConvState) (bk : Block)
    (post : List Block) (hk : wfBlock bk) (hpost : ∀ b ∈ post, wfBlock b)
    (hidx : 1 ≤ st.regionIndex) (r₀ : Region)
    (hr₀ : st.m.Region = some r₀)
    (hmatch : st.m.FieldNames = st.firstLineFieldLabels)
    (hne : blockNames bk ≠ st.firstLineFieldLabels) :
    runAll st (blockLines bk ++ (post.map blockLines).flatten) =
      .error (.fieldNamesMismatch (st.lineNo + 1)
        st.firstLineFieldLabels (blockNames bk)) := by
  obtain ⟨rk, hrk⟩ := Option.isSome_iff_exists.mp hk.1.2.2
  rw [runAll_append,
    runLoop_block_from_steady st bk hk hidx r₀ hr₀ hmatch rk hrk]
  show runAll ⟨⟨some rk, blockNames bk, bk.2.map fieldValueOf⟩,
      st.firstLineFieldLabels, st.regionIndex + 1, st.lineNo + 1,
      st.lineNo + 1 + bk.2.length,
      st.rows ++ [[r₀.AddressStart, r₀.AddressEnd, r₀.Perms, r₀.Offset,
        r₀.Dev, r₀.Inode, r₀.Pathname] ++ st.m.FieldValues]⟩
    ((post.map blockLines).flatten) = _
  exact runAll_mismatch_state _ post hpost
    (by show (1:Int) ≤ st.regionIndex + 1; omega) hne

/-- Like `runAll_offending_from_steady`, but the offending block is the
second region of the file: the schema is captured from the state's
in-progress first mapping as the offending block's header is processed. -/
theorem runAll_offending_from_first (st : ConvState) (bk : Block)
    (post : List Block) (hk : wfBlock bk) (hpost : ∀ b ∈ post, wfBlock b)
    (hidx : st.regionIndex = 0) (r₀ : Region)
    (hr₀ : st.m.Region = some r₀)
    (hne : blockNames bk ≠ st.m.FieldNames) :
    runAll st (blockLines bk ++ (post.map blockLines).flatten) =
      .error (.fieldNamesMismatch (st.lineNo + 1)
        st.m.FieldNames (blockNames bk)) := by
  obtain ⟨rk, hrk⟩ := Option.isSome_iff_exists.mp hk.1.2.2
  rw [runAll_append,
    runLoop_block_second st bk hk hidx r₀ hr₀ rk hrk]
  show runAll ⟨⟨some rk, blockNames bk, bk.2.map fieldValueOf⟩,
      st.m.FieldNames, 1, st.lineNo + 1,
      st.lineNo + 1 + bk.2.length,
      st.rows ++ [toCSVHeader st.m,
        [r₀.AddressStart, r₀.AddressEnd, r₀.Perms, r₀.Offset,
         r₀.Dev, r₀.Inode, r₀.Pathname] ++ st.m.FieldValues]⟩
    ((post.map blockLines).flatten) = _
  exact runAll_mismatch_state _ post hpost
    (by show (1:Int) ≤ 1; omega) hne

/-- Steady-phase invariant: from a steady state, any number of
well-formed blocks whose field names all equal the captured schema are
processed without error, preserving the invariant and advancing the line
counter by the number of lines consumed. -/
theorem runLoop_matching_blocks (bs : List Block) (n0 : List (List Char)) :
    ∀ st : ConvState,
      (∀ b ∈ bs, wfBlock b) → (∀ b ∈ bs, blockNames b = n0) →
      st.firstLineFieldLabels = n0 → st.m.FieldNames = n0 →
      1 ≤ st.regionIndex → st.m.Region.isSome = true →
      ∃ st' : ConvState,
        runLoop st ((bs.map blockLines).flatten) = .ok st' ∧
        st'.firstLineFieldLabels = n0 ∧ st'.m.FieldNames = n0 ∧
        1 ≤ st'.regionIndex ∧ st'.m.Region.isSome = true ∧
        st'.lineNo = st.lineNo + ((bs.map blockLines).flatten).length := by
  induction bs with
  | nil =>
    intro st _ _ h1 h2 h3 h4
    exact ⟨st, rfl, h1, h2, h3, h4, by simp⟩
  | cons b bs' ih =>
    intro st hwf hnm h1 h2 h3 h4
    obtain ⟨r₀, hr₀⟩ := Option.isSome_iff_exists.mp h4
    have hb := hwf b (List.mem_cons_self _ _)
    obtain ⟨r, hr⟩ := Option.isSome_iff_exists.mp hb.1.2.2
    rw [List.map_cons, List.flatten_cons, runLoop_append,
      runLoop_block_from_steady st b hb h3 r₀ hr₀ (h2.trans h1.symm) r hr]
    obtain ⟨st', hrun, ha1, ha2, ha3, ha4, ha5⟩ :=
      ih ⟨⟨some r, blockNames b, b.2.map fieldValueOf⟩,
          st.firstLineFieldLabels, st.regionIndex + 1, st.lineNo + 1,
          st.lineNo + 1 + b.2.length,
          st.rows ++ [[r₀.AddressStart, r₀.AddressEnd, r₀.Perms, r₀.Offset,
            r₀.Dev, r₀.Inode, r₀.Pathname] ++ st.m.FieldValues]⟩
        (fun x hx => hwf x (List.mem_cons_of_mem _ hx))
        (fun x hx => hnm x (List.mem_cons_of_mem _ hx))
        h1 (hnm b (List.mem_cons_self _ _))
        (by show (1:Int) ≤ st.regionIndex + 1; omega) rfl
    refine ⟨st', ?_, ha1, ha2, ha3, ha4, ?_⟩
    · exact hrun
    · rw [ha5]
      simp only [List.length_append, blockLines, List.length_cons]
      omega
end SmapsToCsv

namespace SmapsToCsv

/-- Processing the file's first block from the initial state: no
emission, the region is parsed and the block's fields accumulate. -/
theorem runLoop_block_first (b : Block) (hb : wfBlock b)
    (r : Region) (hr : parseRegion b.1 = some r) :
    runLoop initState (blockLines b) =
      .ok ⟨⟨some r, blockNames b, b.2.map fieldValueOf⟩, [], 0, 1,
        1 + b.2.length, []⟩ := by
  show (match step initState b.1 with
        | Except.error e => Except.error e
        | Except.ok st' => runLoop st' b.2) = _
  rw [step_region_first initState b.1 r hb.1.2.1 hr rfl]
  show runLoop _ b.2 = _
  rw [runLoop_fieldLines b.2 _ hb.2]
  rfl

/-- Claim C2: when the first block whose field-name sequence differs from
the first region's appears (as `bk` here, after the matching prefix
`pre`), the run aborts with a schema-mismatch error carrying the
offending region header's line number together with the expected
sequence (the first region's) and the actual one (the offending
region's); the error is the run's result, so no rows are produced and
there is no partial-success recovery. -/
theorem schemaMismatch_aborts (b0 bk : Block) (pre post : List Block)
    (h0 : wfBlock b0) (hpre : ∀ b ∈ pre, wfBlock b) (hk : wfBlock bk)
    (hpost : ∀ b ∈ post, wfBlock b)
    (hmatch : ∀ b ∈ pre, blockNames b = blockNames b0)
    (hne : blockNames bk ≠ blockNames b0) :
    convertSmapsToCsv (streamOf (b0 :: (pre ++ bk :: post))) =
      .error (.fieldNamesMismatch
        ((((b0 :: pre).map blockLines).flatten).length + 1)
        (blockNames b0) (blockNames bk)) := by
  have hall : ∀ b ∈ b0 :: (pre ++ bk :: post), wfBlock b := by
    intro b hb
    rcases List.mem_cons.mp hb with rfl | hb'
    · exact h0
    rcases List.mem_append.mp hb' with h | h
    · exact hpre _ h
    rcases List.mem_cons.mp h with rfl | h
    · exact hk
    · exact hpost _ h
  have hsplit : splitLines (streamOf (b0 :: (pre ++ bk :: post))) =
      ((b0 :: (pre ++ bk :: post)).map blockLines).flatten :=
    splitLines_flatten_terminated _ (newline_not_mem_of_wf _ hall)
  rw [convertSmapsToCsv, hsplit]
  obtain ⟨r0, hr0⟩ := Option.isSome_iff_exists.mp h0.1.2.2
  rw [List.map_cons, List.flatten_cons, runAll_append,
    runLoop_block_first b0 h0 r0 hr0]
  show runAll ⟨⟨some r0, blockNames b0, b0.2.map fieldValueOf⟩, [], 0, 1,
      1 + b0.2.length, []⟩
    (((pre ++ bk :: post).map blockLines).flatten) = _
  rw [List.map_append, List.flatten_append, List.map_cons,
    List.flatten_cons]
  cases pre with
  | nil =>
    show runAll ⟨⟨some r0, blockNames b0, b0.2.map fieldValueOf⟩, [], 0, 1,
        1 + b0.2.length, []⟩
      (blockLines bk ++ (post.map blockLines).flatten) = _
    rw [runAll_offending_from_first _ bk post hk hpost rfl r0 rfl hne]
    congr 2
    simp [blockLines]
    omega
  | cons p pre' =>
    have hp := hpre p (List.mem_cons_self _ _)
    obtain ⟨rp, hrp⟩ := Option.isSome_iff_exists.mp hp.1.2.2
    rw [List.map_cons, List.flatten_cons, List.append_assoc, runAll_append,
      runLoop_block_second _ p hp rfl r0 rfl rp hrp]
    show runAll ⟨⟨some rp, blockNames p, p.2.map fieldValueOf⟩,
        blockNames b0, 1, 1 + b0.2.length + 1,
        1 + b0.2.length + 1 + p.2.length,
        [toCSVHeader ⟨some r0, blockNames b0, b0.2.map fieldValueOf⟩,
         [r0.AddressStart, r0.AddressEnd, r0.Perms, r0.Offset, r0.Dev,
          r0.Inode, r0.Pathname] ++ b0.2.map fieldValueOf]⟩
      ((pre'.map blockLines).flatten ++
        (blockLines bk ++ (post.map blockLines).flatten)) = _
    rw [runAll_append]
    obtain ⟨st', hrun, hm1, hm2, hm3, hm4, hm5⟩ :=
      runLoop_matching_blocks pre' (blockNames b0)
        ⟨⟨some rp, blockNames p, p.2.map fieldValueOf⟩,
          blockNames b0, 1, 1 + b0.2.length + 1,
          1 + b0.2.length + 1 + p.2.length,
          [toCSVHeader ⟨some r0, blockNames b0, b0.2.map fieldValueOf⟩,
           [r0.AddressStart, r0.AddressEnd, r0.Perms, r0.Offset, r0.Dev,
            r0.Inode, r0.Pathname] ++ b0.2.map fieldValueOf]⟩
        (fun x hx => hpre x (List.mem_cons_of_mem _ hx))
        (fun x hx => hmatch x (List.mem_cons_of_mem _ hx))
        rfl (hmatch p (List.mem_cons_self _ _))
        (by show (1:Int) ≤ 1; omega) rfl
    rw [hrun]
    show runAll st'
      (blockLines bk ++ (post.map blockLines).flatten) = _
    obtain ⟨r', hr'⟩ := Option.isSome_iff_exists.mp hm4
    have hlin : st'.lineNo + 1 =
        (((b0 :: p :: pre').map blockLines).flatten).length + 1 := by
      rw [hm5]
      show 1 + b0.2.length + 1 + p.2.length +
          ((pre'.map blockLines).flatten).length + 1 = _
      simp only [List.map_cons, List.flatten_cons, List.length_append,
        blockLines, List.length_cons]
      omega
    rw [runAll_offending_from_steady st' bk post hk hpost hm3 r' hr'
      (hm2.trans hm1.symm) (by rw [hm1]; exact hne), hm1, hlin]
end SmapsToCsv

namespace SmapsToCsv

instance (l : List Char) : Decidable (wfRegionLine l) := by
  unfold wfRegionLine; infer_instance

instance (l : List Char) : Decidable (wfFieldLine l) := by
  unfold wfFieldLine; infer_instance

instance (b : Block) : Decidable (wfBlock b) := by
  unfold wfBlock; infer_instance

/-- Witness for C2 at a concrete two-region input: the second region
reports `Pss` where the first reported `Size`, and the run aborts with
the mismatch error naming line 3 (the second region's header) and both
sequences. -/
theorem schemaMismatch_aborts_witness :
    wfBlock ("a-b p 0 0:0 0 x".toList, ["Size:1 kB".toList]) ∧
    wfBlock ("c-d p 0 0:0 0 y".toList, ["Pss:2 kB".toList]) ∧
    blockNames ("c-d p 0 0:0 0 y".toList, ["Pss:2 kB".toList]) ≠
      blockNames ("a-b p 0 0:0 0 x".toList, ["Size:1 kB".toList]) ∧
    convertSmapsToCsv (streamOf
        [("a-b p 0 0:0 0 x".toList, ["Size:1 kB".toList]),
         ("c-d p 0 0:0 0 y".toList, ["Pss:2 kB".toList])]) =
      .error (.fieldNamesMismatch 3 ["Size".toList] ["Pss".toList]) := by
  refine ⟨by decide, by decide, by decide, ?_⟩
  exact schemaMismatch_aborts
    ("a-b p 0 0:0 0 x".toList, ["Size:1 kB".toList])
    ("c-d p 0 0:0 0 y".toList, ["Pss:2 kB".toList]) [] []
    (by decide) (by decide) (by decide) (by decide) (by decide) (by decide)

end SmapsToCsv
